import Mathlib

/-!
Verification of the `etherhosts` CSV-to-hosts/ethers converter
(src/main.rs).  The program is embedded shallowly:

* A Rust `String`/`&str` is modelled as a `List Nat`.  For the CSV
  splitter the list holds the UTF-8 *bytes* of the line, because the
  Rust code iterates `line.into_bytes()` and casts each byte with
  `*b as char`; for the validators and the driver the list holds the
  code points of the `String` cells produced by that cast (for ASCII
  input the two views coincide).
* `Result<String, String>` is modelled as `Except (List Nat) (List Nat)`.
* The driver `main` is modelled as a pure function from the list of
  input lines to an outcome; `println!` diagnostics are collected in a
  list, the two output accumulators are collected as lists of lines
  (without the trailing newline each `format!("... \n")` appends and
  without the timestamp comment header, which involves the clock), and
  a Rust panic (out-of-bounds `Vec` index, `expect` on a missing line)
  is a distinguished outcome constructor.
-/

/-- Code points of a Lean string literal; for ASCII text this equals its
UTF-8 bytes.  Used to write concrete inputs readably. -/
def str (s : String) : List Nat := s.toList.map Char.toNat

/-- UTF-8 encoding of one code point (standard 1-4 byte encoding). -/
def utf8EncodeChar (c : Nat) : List Nat :=
  if c < 128 then [c]
  else if c < 2048 then [192 + c / 64, 128 + c % 64]
  else if c < 65536 then [224 + c / 4096, 128 + (c / 64) % 64, 128 + c % 64]
  else [240 + c / 262144, 128 + (c / 4096) % 64, 128 + (c / 64) % 64, 128 + c % 64]

/-- UTF-8 encoding of a sequence of code points: the bytes a text file
holds for those characters. -/
def utf8Encode (s : List Nat) : List Nat := (s.map utf8EncodeChar).flatten

/-! ## CSV line splitter (`process_csv_line`)

Rust first repeatedly finds the two-byte sequence `""` (byte 34 twice),
records its byte offset in `ddq`, and replaces the two bytes by one
space; then it scans the modified line byte by byte with a quote flag.
-/

/-- Byte offset of the first occurrence of `""` (two bytes 34) in the
line, mirroring `line.find("\x22\x22")`. -/
def findDDQ : List Nat → Option Nat
  | [] => none
  | a :: rest =>
    if a = 34 ∧ rest.getD 0 0 = 34 then some 0
    else (findDDQ rest).map (fun n => n + 1)

/-- `line.replace_range(i..=i+1, " ")`: the two bytes at offsets `i`,
`i+1` become a single space (byte 32). -/
def replaceAt (l : List Nat) (i : Nat) : List Nat :=
  l.take i ++ [32] ++ l.drop (i + 2)

/-- The `while f.is_some()` loop of `process_csv_line`: repeatedly
record the offset of the first `""` and collapse it to one space.
Each iteration shortens the line by one byte, so fuel `l.length`
(supplied by `removeDDQ`) always suffices. -/
def removeDDQAux : Nat → List Nat → List Nat × List Nat
  | 0, l => ([], l)
  | fuel + 1, l =>
    match findDDQ l with
    | none => ([], l)
    | some i =>
      let p := removeDDQAux fuel (replaceAt l i)
      (i :: p.fst, p.snd)

/-- Recorded `ddq` offsets and the modified line, after the replacement
loop has run to completion. -/
def removeDDQ (l : List Nat) : List Nat × List Nat :=
  removeDDQAux l.length l

/-- State of the byte scan: the `quoted` flag, the completed `cells`,
and the `cell` being built. -/
structure ScanSt where
  quoted : Bool
  cells : List (List Nat)
  cell : List Nat
deriving DecidableEq

/-- One iteration of the `for (i, b) in line.into_bytes()` loop. -/
def scanStep (ddq : List Nat) (i c : Nat) (st : ScanSt) : ScanSt :=
  if c = 34 then { st with quoted := !st.quoted }
  else if st.quoted = false ∧ c = 44 then
    { quoted := st.quoted, cells := st.cells ++ [st.cell], cell := [] }
  else if ddq.contains i then { st with cell := st.cell ++ [34] }
  else { st with cell := st.cell ++ [c] }

/-- The whole scan loop, threading the byte index `i`. -/
def scanGo (ddq : List Nat) : Nat → ScanSt → List Nat → ScanSt
  | _, st, [] => st
  | i, st, c :: rest => scanGo ddq (i + 1) (scanStep ddq i c st) rest

/-- `process_csv_line`: split one line (as UTF-8 bytes) into cells.
Cells are the code-point sequences of the Rust `String`s built from
`*b as char` (plus restored quotes). -/
def process_csv_line (txt : List Nat) : List (List Nat) :=
  let p := removeDDQ txt
  let st := scanGo p.fst 0 ⟨false, [], []⟩ p.snd
  st.cells ++ [st.cell]

/-! ## Field validators -/

/-- The code points Rust's `char::is_whitespace` (the Unicode
`White_Space` property) accepts; `str::trim` strips these. -/
def rustWhitespace : List Nat :=
  [9, 10, 11, 12, 13, 32, 133, 160, 5760, 8192, 8193, 8194, 8195, 8196,
   8197, 8198, 8199, 8200, 8201, 8202, 8232, 8233, 8239, 8287, 12288]

/-- `s.trim()`: strip leading and trailing whitespace. -/
def rustTrim (s : List Nat) : List Nat :=
  ((s.dropWhile (fun c => rustWhitespace.contains c)).reverse.dropWhile
    (fun c => rustWhitespace.contains c)).reverse

/-- An ASCII decimal digit `0`-`9`: the spec's notion of a decimal
digit, used by the spec-side octet definition below. -/
def isAsciiDigit (c : Nat) : Bool := decide (48 ≤ c ∧ c ≤ 57)

/-- Base code points of the Unicode `Nd` (decimal digit) ranges
(Unicode 13.0, the table era of the `regex` crate this program
builds with): each range is the base and the nine following code
points, holding the digit values 0-9 in order.  Only two facts about
this table enter any proof: it contains the ASCII base 48, and no
other range meets the ASCII block. -/
def ndRangeBases : List Nat :=
  [0x30, 0x660, 0x6F0, 0x7C0, 0x966, 0x9E6, 0xA66, 0xAE6, 0xB66, 0xBE6,
   0xC66, 0xCE6, 0xD66, 0xDE6, 0xE50, 0xED0, 0xF20, 0x1040, 0x1090,
   0x17E0, 0x1810, 0x1946, 0x19D0, 0x1A80, 0x1A90, 0x1B50, 0x1BB0,
   0x1C40, 0x1C50, 0xA620, 0xA8D0, 0xA900, 0xA9D0, 0xA9F0, 0xAA50,
   0xABF0, 0xFF10, 0x104A0, 0x10D30, 0x11066, 0x110F0, 0x11136,
   0x111D0, 0x112F0, 0x11450, 0x114D0, 0x11650, 0x116C0, 0x11730,
   0x118E0, 0x11950, 0x11C50, 0x11D50, 0x11DA0, 0x16A60, 0x16B50,
   0x1D7CE, 0x1D7D8, 0x1D7E2, 0x1D7EC, 0x1D7F6, 0x1E140, 0x1E2F0,
   0x1E950, 0x1FBF0]

/-- The regex class `\d`.  The `regex` crate compiles `\d` as the
Unicode class `\p{Nd}` by default, and the pattern in `clean_ipaddr`
does not disable Unicode mode, so `\d` accepts every Unicode decimal
digit, not only ASCII `0`-`9`. -/
def isDigit (c : Nat) : Bool :=
  ndRangeBases.any (fun b => decide (b ≤ c ∧ c < b + 10))

/-- One octet of the IPv4 regex in `clean_ipaddr`:
`25[0-5]|(2[0-4]|1\d|[1-9]|)\d`.  The optional prefix makes the
alternation match exactly the strings of length 1, 2 or 3 below.  The
literal digits and the bracketed classes are ASCII, while each `\d`
position accepts any Unicode decimal digit. -/
def octetStr : List Nat → Bool
  | [d] => isDigit d
  | [p, d] => isDigit d && decide (49 ≤ p ∧ p ≤ 57)
  | [a, b, c] =>
    decide (a = 50 ∧ b = 53 ∧ 48 ≤ c ∧ c ≤ 53)
    || (decide (a = 50 ∧ 48 ≤ b ∧ b ≤ 52) && isDigit c)
    || (decide (a = 49) && isDigit b && isDigit c)
  | _ => false

/-- Split a list at every occurrence of the value `d` (the pieces do not
contain `d`; `n` occurrences of `d` yield `n + 1` pieces). -/
def splitOnByte (d : Nat) : List Nat → List (List Nat)
  | [] => [[]]
  | c :: rest =>
    if c = d then [] :: splitOnByte d rest
    else
      match splitOnByte d rest with
      | [] => [[c]]
      | p :: ps => (c :: p) :: ps

/-- The anchored IPv4 regex of `clean_ipaddr`: `(octet\.){3}octet`.
Because an octet is nonempty and contains no dot (no `Nd` range
contains the code point 46), a full match is exactly: splitting at
dots yields four pieces, each matching the octet alternation. -/
def ipMatch (s : List Nat) : Bool :=
  (splitOnByte 46 s).length == 4 && (splitOnByte 46 s).all octetStr

/-- `clean_ipaddr`: trim, then regex-check; `Ok` returns the trimmed
string unchanged. -/
def clean_ipaddr (s : List Nat) : Except (List Nat) (List Nat) :=
  let s := rustTrim s
  if ipMatch s then Except.ok s
  else Except.error (str ("ipaddr failed regex check"))

/-- Lowercase hex digit (regex class `[a-f0-9]`). -/
def hexDigit (c : Nat) : Bool :=
  decide ((48 ≤ c ∧ c ≤ 57) ∨ (97 ≤ c ∧ c ≤ 102))

/-- `(:[a-f0-9]\x7b2\x7d)\x7bk\x7d` of the MAC regex: `k` groups of a
colon followed by two hex digits, consuming the whole rest. -/
def macGroups : Nat → List Nat → Bool
  | 0, l => l.isEmpty
  | k + 1, c :: a :: b :: rest =>
    decide (c = 58) && hexDigit a && hexDigit b && macGroups k rest
  | _ + 1, _ => false

/-- The anchored MAC regex of `clean_mac`:
two hex digits followed by five colon-and-two-hex-digit groups. -/
def macMatch (s : List Nat) : Bool :=
  match s with
  | a :: b :: rest => hexDigit a && hexDigit b && macGroups 5 rest
  | _ => false

/-- The hyphen-to-colon map in `clean_mac`. -/
def hyphenToColon (c : Nat) : Nat := if c = 45 then 58 else c

/-- ASCII lowercasing (`to_lowercase`).  Rust lowercases by the full
Unicode mapping, but no non-ASCII code point lowercases into the
`[a-f0-9:]` alphabet the subsequent regex accepts, so ASCII-only
lowercasing yields the same `Ok`/`Err` outcome and the same returned
string on every input. -/
def asciiLower (c : Nat) : Nat := if 65 ≤ c ∧ c ≤ 90 then c + 32 else c

/-- The normalization pipeline of `clean_mac` after the emptiness test:
hyphens to colons, then lowercase. -/
def macNormalize (s : List Nat) : List Nat :=
  (s.map hyphenToColon).map asciiLower

/-- `clean_mac`: trim; empty means absent (`Err("")`); otherwise
normalize and regex-check. -/
def clean_mac (s : List Nat) : Except (List Nat) (List Nat) :=
  let s := rustTrim s
  if s.length = 0 then Except.error []
  else
    let s := macNormalize s
    if macMatch s then Except.ok s
    else Except.error (str ("macaddr failed regex check"))

/-- The character class `[a-zA-Z0-9-\. ]` of `clean_hostname`'s regex. -/
def hostnameChar (c : Nat) : Bool :=
  decide ((97 ≤ c ∧ c ≤ 122) ∨ (65 ≤ c ∧ c ≤ 90) ∨ (48 ≤ c ∧ c ≤ 57)
    ∨ c = 45 ∨ c = 46 ∨ c = 32)

/-- `clean_hostname`: trim; empty means absent (`Err("")`); otherwise
the anchored regex `^([a-zA-Z0-9-\. ]*)$` demands every character be in
the class. -/
def clean_hostname (s : List Nat) : Except (List Nat) (List Nat) :=
  let s := rustTrim s
  if s.length = 0 then Except.error []
  else if s.all hostnameChar then Except.ok s
  else Except.error (str ("hostname failed regex check"))

/-! ## Conversion driver (`main`)

Only the pure conversion logic of `main` is modelled: the argument
handling, the clock-dependent timestamp comment line, and the final
`fs::write` calls are I/O.  The hosts/ethers accumulators are modelled
as the lists of lines appended after the comment header (each
`format!` ends in a newline, so the accumulator is exactly the
concatenation of these lines).  A Rust panic is a distinguished
outcome: it aborts the process, so nothing after it runs and no output
file is written. -/

/-- The mutable header-search state of `main`: the three column indices
(initialized to 0) and the three `found_*` flags. -/
structure HeaderState where
  ipaddrcol : Nat
  hostnamecol : Nat
  maccol : Nat
  found_i : Bool
  found_h : Bool
  found_m : Bool
deriving DecidableEq

/-- The `for (c, field) in header_row.iter().enumerate()` loop:
an else-if chain comparing each cell with the three names; a later
match overwrites an earlier recorded index. -/
def headerScanAux : Nat → HeaderState → List (List Nat) → HeaderState
  | _, st, [] => st
  | c, st, field :: rest =>
    headerScanAux (c + 1)
      (if field = str ("ipaddr") then { st with found_i := true, ipaddrcol := c }
       else if field = str ("hostname") then { st with found_h := true, hostnamecol := c }
       else if field = str ("macaddr") then { st with found_m := true, maccol := c }
       else st) rest

/-- Column resolution over the split header row, starting from the
all-zero, nothing-found state. -/
def headerScan (header_row : List (List Nat)) : HeaderState :=
  headerScanAux 0 ⟨0, 0, 0, false, false, false⟩ header_row

/-- One `println!` diagnostic of the row loop, with the 1-based
user-facing line number (`r + 2`) and the reason string it formats:
`skipping line _: _`, `invalid hostname on line _: _`,
`invalid macaddr on line _: _`. -/
inductive Diag where
  | skipLine (lineNo : Nat) (reason : List Nat)
  | invalidHostname (lineNo : Nat) (reason : List Nat)
  | invalidMac (lineNo : Nat) (reason : List Nat)
deriving DecidableEq

/-- Result of processing one data row: `panic` when a required column
index is out of bounds for the row's cells (a panicking `Vec` index in
Rust), otherwise the diagnostics printed and the lines appended to the
hosts and ethers accumulators.  (A diagnostic printed before a panic in
the same row is not recorded; only the abort itself is.) -/
inductive RowResult where
  | panic
  | ok (diags : List Diag) (hostLines etherLines : List (List Nat))
deriving DecidableEq

/-- The body of `for (r, line) in lines.enumerate()` applied to the
already-split cells of one data row, for 0-based data-row index `r`:
index the IP cell (panic if absent); on validator failure print the
skip diagnostic and continue; on success evaluate hostname then MAC,
each appending its own line on success, printing a diagnostic on a
non-empty error, and staying silent on the empty (absent) error. -/
def processRow (hs : HeaderState) (r : Nat) (fields : List (List Nat)) : RowResult :=
  if hs.ipaddrcol < fields.length then
    match clean_ipaddr (fields.getD hs.ipaddrcol []) with
    | Except.error s => RowResult.ok [Diag.skipLine (r + 2) s] [] []
    | Except.ok ipaddr =>
      if hs.hostnamecol < fields.length then
        let hostRes : List Diag × List (List Nat) :=
          match clean_hostname (fields.getD hs.hostnamecol []) with
          | Except.ok hostname => ([], [ipaddr ++ 32 :: hostname])
          | Except.error s =>
            (if s.length ≠ 0 then [Diag.invalidHostname (r + 2) s] else [], [])
        if hs.maccol < fields.length then
          let macRes : List Diag × List (List Nat) :=
            match clean_mac (fields.getD hs.maccol []) with
            | Except.ok macaddr => ([], [macaddr ++ 32 :: ipaddr])
            | Except.error s =>
              (if s.length ≠ 0 then [Diag.invalidMac (r + 2) s] else [], [])
          RowResult.ok (hostRes.fst ++ macRes.fst) hostRes.snd macRes.snd
        else RowResult.panic
      else RowResult.panic
  else RowResult.panic

/-- Outcome of the data-row loop: either the whole run aborted with a
panic while processing the data row of 0-based index `r`, or the loop
finished with the accumulated diagnostics, hosts lines and ethers
lines (in emission order). -/
inductive RowsOutcome where
  | panic (r : Nat)
  | done (diags : List Diag) (hosts ethers : List (List Nat))
deriving DecidableEq

/-- The data-row loop itself: split each line, process it, accumulate;
a panic stops everything. -/
def runRows (hs : HeaderState) : Nat → List (List Nat) → RowsOutcome
  | _, [] => RowsOutcome.done [] [] []
  | r, line :: rest =>
    match processRow hs r (process_csv_line line) with
    | RowResult.panic => RowsOutcome.panic r
    | RowResult.ok d h e =>
      match runRows hs (r + 1) rest with
      | RowsOutcome.panic k => RowsOutcome.panic k
      | RowsOutcome.done d' h' e' => RowsOutcome.done (d ++ d') (h ++ h') (e ++ e')

/-- Outcome of a whole run of `main` on the input file's lines:
`panicNoHeader` is the `expect` panic on a file with no first line;
`headerMissing` is the early `return` after `Couldn't find all the
headers` (no output file written); `panicRow r` is an index panic in
data row `r` (run aborted, no output file written); `done` carries the
diagnostics and the two accumulators that are then written out. -/
inductive MainOutcome where
  | panicNoHeader
  | headerMissing
  | panicRow (r : Nat)
  | done (diags : List Diag) (hosts ethers : List (List Nat))
deriving DecidableEq

/-- `main` after the file read: resolve columns from the first line,
bail out if a required header is missing, otherwise run the row loop. -/
def runMain (lines : List (List Nat)) : MainOutcome :=
  match lines with
  | [] => MainOutcome.panicNoHeader
  | first :: rest =>
    let hs := headerScan (process_csv_line first)
    if hs.found_i && hs.found_h && hs.found_m then
      match runRows hs 0 rest with
      | RowsOutcome.panic r => MainOutcome.panicRow r
      | RowsOutcome.done d h e => MainOutcome.done d h e
    else MainOutcome.headerMissing

/-- `str::lines` on the raw file bytes: split at byte 10, dropping one
byte 13 from the end of a piece that was terminated by a byte 10; a
final piece after the last byte 10 is kept as-is if nonempty and
produces no line if empty (so the empty file has zero lines).  `cur`
holds the bytes of the current piece in reverse. -/
def rustLinesGo (cur : List Nat) : List Nat → List (List Nat)
  | [] => if cur.isEmpty then [] else [cur.reverse]
  | c :: rest =>
    if c = 10 then
      (match cur with
       | 13 :: t => t.reverse
       | _ => cur.reverse) :: rustLinesGo [] rest
    else rustLinesGo (c :: cur) rest

/-- `input.lines()` over the whole file content. -/
def rustLines (input : List Nat) : List (List Nat) := rustLinesGo [] input

/-- The run of `main` on raw file content (after a successful
`fs::read_to_string`). -/
def runMainStr (input : List Nat) : MainOutcome := runMain (rustLines input)

/-! ## Spec-side definitions

Definitions below restate, in the claims' own words, the languages the
source regexes accept (`strictOctetSpec`/`ipSpec` for the IPv4 regex,
`hexPairShape`/`macSpec` for the MAC regex) together with the helper
notions the proofs relate them with (`occAt`, `digitsVal`, `joinWith`,
`colonGroups`). -/
/-- An occurrence of `""` at offset `k`: the bytes at `k` and `k+1` are
both quotes (reading past the end yields the default 0, never 34). -/
def occAt (l : List Nat) (k : Nat) : Prop :=
  l.getD k 0 = 34 ∧ l.getD (k + 1) 0 = 34

/-- Value of a decimal numeral (digit code points). -/
def digitsVal (p : List Nat) : Nat :=
  p.foldl (fun acc c => acc * 10 + (c - 48)) 0

/-- Modelled from the claim wording, for comparison with the regex: a
strict octet is a nonempty string of (ASCII) decimal digits whose
value is at most 255 and which has no leading zero (a first digit `0`
only in the one-digit numeral `0`). -/
def strictOctetSpec (p : List Nat) : Prop :=
  p ≠ [] ∧ (∀ c ∈ p, isAsciiDigit c = true) ∧ digitsVal p ≤ 255
    ∧ (p.getD 0 0 = 48 → p = [48])

/-- Join pieces with a separator value: left inverse of `splitOnByte`. -/
def joinWith (d : Nat) : List (List Nat) → List Nat
  | [] => []
  | [p] => p
  | p :: ps => p ++ d :: joinWith d ps

/-- Modelled from the claim wording: a dotted-quad of four strict
octets. -/
def ipSpec (t : List Nat) : Prop :=
  ∃ o1 o2 o3 o4, t = o1 ++ 46 :: (o2 ++ 46 :: (o3 ++ 46 :: o4))
    ∧ strictOctetSpec o1 ∧ strictOctetSpec o2 ∧ strictOctetSpec o3
    ∧ strictOctetSpec o4

/-- A two-hex-digit group. -/
def hexPairShape (g : List Nat) : Prop :=
  ∃ x y, g = [x, y] ∧ hexDigit x = true ∧ hexDigit y = true

/-- Modelled from the claim wording: exactly six two-hex-digit groups
separated by colons. -/
def macSpec (v : List Nat) : Prop :=
  ∃ gs : List (List Nat), gs.length = 6 ∧ (∀ g ∈ gs, hexPairShape g)
    ∧ v = joinWith 58 gs

/-- The concatenation the `macGroups` pattern consumes: a colon before
each group. -/
def colonGroups (gs : List (List Nat)) : List Nat :=
  gs.foldr (fun g acc => 58 :: (g ++ acc)) []

/-! ## Claims -/

/-- **C10**: a readable input file with zero lines (the empty file is
the only text whose `lines()` iterator is empty) makes `main` panic at
the `expect` when reading the header row, reaching neither the
missing-header fatal path nor any row-level path. -/
theorem C10_zero_lines_panics : runMainStr [] = MainOutcome.panicNoHeader := by rfl

/-- **C3 counterexample**: with header `ipaddr,hostname,macaddr`, a data
row `1.2.3.4` (one cell, so the hostname column index 1 is out of
range) makes the whole run abort with an index panic at data row 0; the
following fully valid row is never processed and no output is written,
contradicting "the driver continues with the remaining rows". -/
theorem C3_counterexample :
    runMain [str ("ipaddr,hostname,macaddr"), str ("1.2.3.4"),
      str ("5.6.7.8,myhost,aa:bb:cc:dd:ee:ff")] = MainOutcome.panicRow 0 := by decide

/-- **C3 amended**: a data row whose cell sequence is shorter than a
required resolved column index makes the run abort (Rust index panic)
when that index is accessed — the IP column index unconditionally, as
stated here — and once a row panics the loop stops: the remaining rows
are not processed and no output file is produced. -/
theorem C3_short_row_aborts_run :
    (∀ (hs : HeaderState) (r : Nat) (fields : List (List Nat)),
      fields.length ≤ hs.ipaddrcol → processRow hs r fields = RowResult.panic)
    ∧ (∀ (hs : HeaderState) (r : Nat) (line : List Nat) (rest : List (List Nat)),
      processRow hs r (process_csv_line line) = RowResult.panic →
      runRows hs r (line :: rest) = RowsOutcome.panic r) := by
  constructor
  · intro hs r fields h
    unfold processRow
    rw [if_neg (by omega)]
  · intro hs r line rest h
    unfold runRows
    rw [h]

/-- Witness for C3's amended theorem: a concrete short row panics and
aborts the loop before a valid following row. -/
theorem C3_short_row_aborts_run_witness :
    processRow ⟨5, 0, 0, true, true, true⟩ 0 [[49]] = RowResult.panic
    ∧ runRows ⟨5, 0, 0, true, true, true⟩ 0 [[49], [50]] = RowsOutcome.panic 0 := by
  refine ⟨C3_short_row_aborts_run.1 ⟨5, 0, 0, true, true, true⟩ 0 [[49]] (by decide), ?_⟩
  exact C3_short_row_aborts_run.2 ⟨5, 0, 0, true, true, true⟩ 0 [49] [[50]]
    (C3_short_row_aborts_run.1 _ 0 _ (by decide))

/-- Unfolding lemma for one step of the row loop. -/
theorem runRows_cons (hs : HeaderState) (r : Nat) (line : List Nat)
    (rest : List (List Nat)) :
    runRows hs r (line :: rest) =
      match processRow hs r (process_csv_line line) with
      | RowResult.panic => RowsOutcome.panic r
      | RowResult.ok d h e =>
        match runRows hs (r + 1) rest with
        | RowsOutcome.panic k => RowsOutcome.panic k
        | RowsOutcome.done d' h' e' =>
          RowsOutcome.done (d ++ d') (h ++ h') (e ++ e') := rfl

/-- **C5**: a data row whose IP cell exists but fails `clean_ipaddr`
contributes exactly one diagnostic — `skipping line (r+2)` with the
failure reason — and no hosts line and no ethers line, and the loop
then processes the remaining rows exactly as it would have. -/
theorem C5_invalid_ip_skips_row (hs : HeaderState) (r : Nat) (line : List Nat)
    (rest : List (List Nat)) (s : List Nat)
    (hlt : hs.ipaddrcol < (process_csv_line line).length)
    (herr : clean_ipaddr ((process_csv_line line).getD hs.ipaddrcol []) = Except.error s) :
    runRows hs r (line :: rest) =
      match runRows hs (r + 1) rest with
      | RowsOutcome.panic k => RowsOutcome.panic k
      | RowsOutcome.done d h e => RowsOutcome.done (Diag.skipLine (r + 2) s :: d) h e := by
  have hrow : processRow hs r (process_csv_line line)
      = RowResult.ok [Diag.skipLine (r + 2) s] [] [] := by
    unfold processRow
    rw [if_pos hlt, herr]
  rw [runRows_cons, hrow]
  cases hrec : runRows hs (r + 1) rest <;> simp

/-- Witness for C5: a blank IP cell on the first data row yields the
`skipping line 2` diagnostic with the validator's reason, no output
lines for that row, and the next (valid) row is still processed. -/
theorem C5_witness :
    runRows ⟨0, 1, 2, true, true, true⟩ 0
      [str (",h,aa:bb:cc:dd:ee:ff"), str ("5.6.7.8,myhost,")] =
      RowsOutcome.done [Diag.skipLine 2 (str ("ipaddr failed regex check"))]
        [str ("5.6.7.8 myhost")] [] := by
  have h := C5_invalid_ip_skips_row ⟨0, 1, 2, true, true, true⟩ 0
    (str (",h,aa:bb:cc:dd:ee:ff")) [str ("5.6.7.8,myhost,")]
    (str ("ipaddr failed regex check")) (by decide) (by rfl)
  rw [h]
  rfl

/-- **C7**: once the IP of a row is valid, hostname and MAC are
evaluated independently of one another: the row result splits into a
hostname part and a MAC part, each fully determined by its own
validator result — an absent (blank) cell contributes nothing and no
diagnostic, a present-but-malformed cell contributes only its
diagnostic, a valid cell contributes only its output line. -/
theorem C7_hostname_mac_independent (hs : HeaderState) (r : Nat)
    (fields : List (List Nat))
    (h1 : hs.ipaddrcol < fields.length) (h2 : hs.hostnamecol < fields.length)
    (h3 : hs.maccol < fields.length) (ip : List Nat)
    (hip : clean_ipaddr (fields.getD hs.ipaddrcol []) = Except.ok ip) :
    ∃ hd hl md ml, processRow hs r fields = RowResult.ok (hd ++ md) hl ml
      ∧ (clean_hostname (fields.getD hs.hostnamecol []) = Except.error [] →
          hd = [] ∧ hl = [])
      ∧ (∀ s, s ≠ [] → clean_hostname (fields.getD hs.hostnamecol []) = Except.error s →
          hd = [Diag.invalidHostname (r + 2) s] ∧ hl = [])
      ∧ (∀ hn, clean_hostname (fields.getD hs.hostnamecol []) = Except.ok hn →
          hd = [] ∧ hl = [ip ++ 32 :: hn])
      ∧ (clean_mac (fields.getD hs.maccol []) = Except.error [] →
          md = [] ∧ ml = [])
      ∧ (∀ s, s ≠ [] → clean_mac (fields.getD hs.maccol []) = Except.error s →
          md = [Diag.invalidMac (r + 2) s] ∧ ml = [])
      ∧ (∀ m, clean_mac (fields.getD hs.maccol []) = Except.ok m →
          md = [] ∧ ml = [m ++ 32 :: ip]) := by
  have hrow : processRow hs r fields =
      RowResult.ok
        ((match clean_hostname (fields.getD hs.hostnamecol []) with
          | Except.ok _ => ([] : List Diag)
          | Except.error s => if s.length ≠ 0 then [Diag.invalidHostname (r + 2) s] else [])
         ++ (match clean_mac (fields.getD hs.maccol []) with
          | Except.ok _ => ([] : List Diag)
          | Except.error s => if s.length ≠ 0 then [Diag.invalidMac (r + 2) s] else []))
        (match clean_hostname (fields.getD hs.hostnamecol []) with
          | Except.ok hostname => [ip ++ 32 :: hostname]
          | Except.error _ => [])
        (match clean_mac (fields.getD hs.maccol []) with
          | Except.ok macaddr => [macaddr ++ 32 :: ip]
          | Except.error _ => []) := by
    unfold processRow
    rw [if_pos h1, hip]
    simp only [h2, h3, if_true]
    cases clean_hostname (fields.getD hs.hostnamecol []) <;>
      cases clean_mac (fields.getD hs.maccol []) <;> rfl
  refine ⟨_, _, _, _, hrow, ?_, ?_, ?_, ?_, ?_, ?_⟩
  · intro hh; rw [hh]; simp
  · intro s hs' hh; rw [hh]
    simp [List.length_eq_zero, hs']
  · intro hn hh; rw [hh]; simp
  · intro hm; rw [hm]; simp
  · intro s hs' hm; rw [hm]
    simp [List.length_eq_zero, hs']
  · intro m hm; rw [hm]; simp

/-- Witness for C7: a row with a valid IP, a blank hostname cell and a
valid MAC yields no diagnostic, no hosts line, and exactly one ethers
line. -/
theorem C7_witness :
    processRow ⟨0, 1, 2, true, true, true⟩ 0
      [str ("1.2.3.4"), str (" "), str ("aa:bb:cc:dd:ee:ff")]
      = RowResult.ok [] [] [str ("aa:bb:cc:dd:ee:ff 1.2.3.4")] := by
  obtain ⟨hd, hl, md, ml, heq, hblank, _, _, _, _, hmok⟩ :=
    C7_hostname_mac_independent ⟨0, 1, 2, true, true, true⟩ 0
      [str ("1.2.3.4"), str (" "), str ("aa:bb:cc:dd:ee:ff")]
      (by decide) (by decide) (by decide) (str ("1.2.3.4")) (by rfl)
  obtain ⟨ehd, ehl⟩ := hblank (by rfl)
  obtain ⟨emd, eml⟩ := hmok (str ("aa:bb:cc:dd:ee:ff")) (by rfl)
  rw [heq, ehd, ehl, emd, eml]
  rfl

/-- `found_i` is set by the header loop exactly when some header cell
is the exact string `ipaddr`. -/
theorem headerScanAux_found_i (cells : List (List Nat)) :
    ∀ (c : Nat) (st : HeaderState),
      ((headerScanAux c st cells).found_i = true ↔
        st.found_i = true ∨ str ("ipaddr") ∈ cells) := by
  induction cells with
  | nil => intro c st; simp [headerScanAux]
  | cons f rest ih =>
    intro c st
    simp only [headerScanAux]
    rw [ih]
    by_cases e1 : f = str ("ipaddr")
    · simp [e1]
    · rw [if_neg e1]
      by_cases e2 : f = str ("hostname")
      · simp [e2, if_pos rfl, List.mem_cons, e1]
        tauto
      · rw [if_neg e2]
        by_cases e3 : f = str ("macaddr")
        · simp [e3, List.mem_cons, e1]
          tauto
        · rw [if_neg e3]
          simp [List.mem_cons, e1]
          tauto

/-- `found_h` is set exactly when some header cell is `hostname`. -/
theorem headerScanAux_found_h (cells : List (List Nat)) :
    ∀ (c : Nat) (st : HeaderState),
      ((headerScanAux c st cells).found_h = true ↔
        st.found_h = true ∨ str ("hostname") ∈ cells) := by
  induction cells with
  | nil => intro c st; simp [headerScanAux]
  | cons f rest ih =>
    intro c st
    simp only [headerScanAux]
    rw [ih]
    by_cases e1 : f = str ("ipaddr")
    · have : f ≠ str ("hostname") := by rw [e1]; decide
      simp [e1, List.mem_cons, this]
      tauto
    · rw [if_neg e1]
      by_cases e2 : f = str ("hostname")
      · simp [e2]
      · rw [if_neg e2]
        by_cases e3 : f = str ("macaddr")
        · simp [e3, List.mem_cons, e2]
          tauto
        · rw [if_neg e3]
          simp [List.mem_cons, e2]
          tauto

/-- `found_m` is set exactly when some header cell is `macaddr`. -/
theorem headerScanAux_found_m (cells : List (List Nat)) :
    ∀ (c : Nat) (st : HeaderState),
      ((headerScanAux c st cells).found_m = true ↔
        st.found_m = true ∨ str ("macaddr") ∈ cells) := by
  induction cells with
  | nil => intro c st; simp [headerScanAux]
  | cons f rest ih =>
    intro c st
    simp only [headerScanAux]
    rw [ih]
    by_cases e1 : f = str ("ipaddr")
    · have : f ≠ str ("macaddr") := by rw [e1]; decide
      simp [e1, List.mem_cons, this]
      tauto
    · rw [if_neg e1]
      by_cases e2 : f = str ("hostname")
      · have : f ≠ str ("macaddr") := by rw [e2]; decide
        simp [e2, List.mem_cons, this]
        tauto
      · rw [if_neg e2]
        by_cases e3 : f = str ("macaddr")
        · simp [e3]
        · rw [if_neg e3]
          simp [List.mem_cons, e3]
          tauto

/-- **C9**: if any of the three required header names is absent from the
split first row, the run stops on the missing-header path — whatever
the remaining lines are, no data row is processed and no output
accumulator is ever created or written. -/
theorem C9_missing_header_aborts (first : List Nat) (rest : List (List Nat))
    (h : ¬ str ("ipaddr") ∈ process_csv_line first
       ∨ ¬ str ("hostname") ∈ process_csv_line first
       ∨ ¬ str ("macaddr") ∈ process_csv_line first) :
    runMain (first :: rest) = MainOutcome.headerMissing := by
  have hcond : ((headerScan (process_csv_line first)).found_i
      && (headerScan (process_csv_line first)).found_h
      && (headerScan (process_csv_line first)).found_m) = false := by
    rcases h with h | h | h
    · have : (headerScan (process_csv_line first)).found_i = false := by
        rw [← Bool.not_eq_true]
        rw [headerScan, headerScanAux_found_i]
        simp [h]
      simp [this]
    · have : (headerScan (process_csv_line first)).found_h = false := by
        rw [← Bool.not_eq_true]
        rw [headerScan, headerScanAux_found_h]
        simp [h]
      simp [this]
    · have : (headerScan (process_csv_line first)).found_m = false := by
        rw [← Bool.not_eq_true]
        rw [headerScan, headerScanAux_found_m]
        simp [h]
      simp [this]
  unfold runMain
  simp [hcond]

/-- Witness for C9: a header row lacking `ipaddr` aborts the run even
though a fully valid data row follows. -/
theorem C9_witness :
    runMain [str ("hostname,macaddr"), str ("1.2.3.4,h,aa:bb:cc:dd:ee:ff")]
      = MainOutcome.headerMissing :=
  C9_missing_header_aborts (str ("hostname,macaddr"))
    [str ("1.2.3.4,h,aa:bb:cc:dd:ee:ff")] (Or.inl (by decide))

/-! ### Lemmas about the `""`-replacement loop (for C1) -/

/-- `findDDQ` returns the first occurrence of `""`. -/
theorem findDDQ_spec (l : List Nat) : ∀ i, findDDQ l = some i →
    occAt l i ∧ ∀ k, k < i → ¬ occAt l k := by
  induction l with
  | nil => intro i h; simp [findDDQ] at h
  | cons a rest ih =>
    intro i h
    by_cases hc : a = 34 ∧ rest.getD 0 0 = 34
    · rw [findDDQ, if_pos hc] at h
      obtain rfl : (0 : Nat) = i := Option.some.inj h
      refine ⟨⟨?_, ?_⟩, fun k hk => absurd hk (by omega)⟩
      · simpa using hc.1
      · simpa [List.getD_cons_succ] using hc.2
    · rw [findDDQ, if_neg hc] at h
      obtain ⟨j, hj, hji⟩ := Option.map_eq_some'.mp h
      subst hji
      obtain ⟨hocc, hmin⟩ := ih j hj
      refine ⟨⟨?_, ?_⟩, ?_⟩
      · simpa [List.getD_cons_succ] using hocc.1
      · simpa [List.getD_cons_succ] using hocc.2
      · intro k hk
        match k with
        | 0 =>
          intro hcon
          exact hc ⟨by simpa using hcon.1, by simpa [List.getD_cons_succ] using hcon.2⟩
        | k' + 1 =>
          intro hcon
          exact hmin k' (by omega)
            ⟨by simpa [List.getD_cons_succ] using hcon.1,
             by simpa [List.getD_cons_succ] using hcon.2⟩

/-- An occurrence needs both bytes to exist. -/
theorem occAt_bound (l : List Nat) (k : Nat) (h : occAt l k) : k + 1 < l.length := by
  by_contra hk
  have := List.getD_eq_default (l := l) (d := 0) (n := k + 1) (by omega)
  have h2 := h.2
  omega

theorem replaceAt_getD_lt (l : List Nat) (i k : Nat) (hk : k < i) (hi : i ≤ l.length) :
    (replaceAt l i).getD k 0 = l.getD k 0 := by
  unfold replaceAt
  have hlen : (l.take i).length = i := by simp [List.length_take]; omega
  rw [List.getD_append _ _ _ _ (by simp [List.length_append, hlen]; omega)]
  rw [List.getD_append _ _ _ _ (by rw [hlen]; omega)]
  rw [List.getD_eq_getElem _ _ (by rw [hlen]; omega),
    List.getD_eq_getElem _ _ (by omega)]
  exact List.getElem_take _

theorem replaceAt_getD_self (l : List Nat) (i : Nat) (hi : i ≤ l.length) :
    (replaceAt l i).getD i 0 = 32 := by
  unfold replaceAt
  have hlen : (l.take i).length = i := by simp [List.length_take]; omega
  rw [List.getD_append _ _ _ _ (by simp [List.length_append, hlen])]
  rw [List.getD_append_right _ _ _ _ (by omega)]
  rw [hlen]
  simp

/-- After collapsing the first occurrence (at `i`) to a space, no
occurrence of `""` remains at any offset up to `i`. -/
theorem replaceAt_no_occ (l : List Nat) (i : Nat) (hocc : occAt l i)
    (hmin : ∀ k, k < i → ¬ occAt l k) :
    ∀ k, k ≤ i → ¬ occAt (replaceAt l i) k := by
  have hlen := occAt_bound l i hocc
  intro k hk hcon
  obtain ⟨h1, h2⟩ := hcon
  by_cases hki : k = i
  · subst hki
    rw [replaceAt_getD_self l k (by omega)] at h1
    omega
  · rw [replaceAt_getD_lt l i k (by omega) (by omega)] at h1
    by_cases hk1 : k + 1 < i
    · rw [replaceAt_getD_lt l i (k + 1) hk1 (by omega)] at h2
      exact hmin k (by omega) ⟨h1, h2⟩
    · have he : k + 1 = i := by omega
      rw [he, replaceAt_getD_self l i (by omega)] at h2
      omega

/-- The replacement loop never rewrites a position below a prefix that
is free of `""` occurrences: later replacements happen strictly to the
right. -/
theorem removeDDQAux_front_agrees (fuel : Nat) : ∀ (l : List Nat) (j : Nat),
    (∀ k, k ≤ j → ¬ occAt l k) → ∀ m, m ≤ j →
    (removeDDQAux fuel l).snd.getD m 0 = l.getD m 0 := by
  induction fuel with
  | zero => intro l j _ m _; rfl
  | succ fuel ih =>
    intro l j h m hm
    cases hf : findDDQ l with
    | none => simp [removeDDQAux, hf]
    | some i =>
      simp only [removeDDQAux, hf]
      obtain ⟨hocc, hmin⟩ := findDDQ_spec l i hf
      have hij : j < i := by
        by_contra hij
        exact h i (by omega) hocc
      have hlen := occAt_bound l i hocc
      have hnew : ∀ k, k ≤ j → ¬ occAt (replaceAt l i) k := fun k hk =>
        replaceAt_no_occ l i hocc hmin k (by omega)
      rw [ih (replaceAt l i) j hnew m hm,
        replaceAt_getD_lt l i m (by omega) (by omega)]

/-- Every recorded `ddq` offset holds the space placeholder in the
final modified line. -/
theorem removeDDQAux_placeholder (fuel : Nat) : ∀ (l : List Nat) (i : Nat),
    i ∈ (removeDDQAux fuel l).fst → (removeDDQAux fuel l).snd.getD i 0 = 32 := by
  induction fuel with
  | zero => intro l i h; simp [removeDDQAux] at h
  | succ fuel ih =>
    intro l i h
    cases hf : findDDQ l with
    | none => simp [removeDDQAux, hf] at h
    | some i0 =>
      simp only [removeDDQAux, hf] at h ⊢
      obtain ⟨hocc, hmin⟩ := findDDQ_spec l i0 hf
      have hlen := occAt_bound l i0 hocc
      rcases List.mem_cons.mp h with rfl | hmem
      · have hnew := replaceAt_no_occ l i hocc hmin
        rw [removeDDQAux_front_agrees fuel (replaceAt l i) i hnew i (by omega),
          replaceAt_getD_self l i (by omega)]
      · exact ih (replaceAt l i0) i hmem

/-- **C1**: every recorded `""` occurrence ends up as the space
placeholder in the modified line, and at such a recorded position the
scan emits one literal quote into the cell being built whatever the
current quote flag is; on `a,"b""c",d` this yields exactly the cells
`a`, `b"c`, `d`. -/
theorem C1_escaped_quotes_restored :
    (∀ (l : List Nat) (i : Nat), i ∈ (removeDDQ l).fst →
      (removeDDQ l).snd.getD i 0 = 32)
    ∧ (∀ (ddq : List Nat) (i : Nat) (st : ScanSt), ddq.contains i = true →
        scanStep ddq i 32 st = { st with cell := st.cell ++ [34] })
    ∧ process_csv_line (str ("a,\"b\"\"c\",d"))
        = [str ("a"), str ("b\"c"), str ("d")] := by
  refine ⟨fun l i h => removeDDQAux_placeholder l.length l i h, ?_, by decide⟩
  intro ddq i st hmem
  unfold scanStep
  rw [if_neg (by omega), if_neg (by simp), if_pos hmem]

/-- Witness for C1: the line consisting only of `""` records offset 0,
the modified line holds the placeholder there, and the scan step at a
recorded offset emits a quote even while the quote flag is set. -/
theorem C1_witness :
    (removeDDQ (str ("\"\""))).snd.getD 0 0 = 32
    ∧ scanStep [0] 0 32 ⟨true, [], []⟩ = ⟨true, [], [34]⟩ := by
  refine ⟨C1_escaped_quotes_restored.1 (str ("\"\"")) 0 (by decide), ?_⟩
  have h := C1_escaped_quotes_restored.2.1 [0] 0 ⟨true, [], []⟩ (by decide)
  simpa using h

/-- **C8**: while the quote flag is clear a comma closes the current
cell and starts a new one; while it is set a comma is appended as
literal cell content; `a,"b,c",d` splits into `a`, `b,c`, `d`; the
empty line yields the single empty cell (the final cell is appended
exactly once, after the scan). -/
theorem C8_comma_splitting :
    (∀ (ddq : List Nat) (i : Nat) (st : ScanSt), st.quoted = false →
        scanStep ddq i 44 st = ⟨false, st.cells ++ [st.cell], []⟩)
    ∧ (∀ (ddq : List Nat) (i : Nat) (st : ScanSt), st.quoted = true →
        ddq.contains i = false →
        scanStep ddq i 44 st = { st with cell := st.cell ++ [44] })
    ∧ process_csv_line (str ("a,\"b,c\",d")) = [str ("a"), str ("b,c"), str ("d")]
    ∧ process_csv_line [] = [[]] := by
  refine ⟨?_, ?_, by decide, by decide⟩
  · intro ddq i st hq
    unfold scanStep
    rw [if_neg (by omega), if_pos ⟨hq, rfl⟩, hq]
  · intro ddq i st hq hd
    unfold scanStep
    rw [if_neg (by omega), if_neg (by simp [hq]), if_neg (by rw [hd]; exact Bool.false_ne_true)]

/-- Witness for C8: an unquoted comma ends the cell; a quoted comma is
literal content. -/
theorem C8_witness :
    scanStep [] 0 44 ⟨false, [], [120]⟩ = ⟨false, [[120]], []⟩
    ∧ scanStep [] 5 44 ⟨true, [], []⟩ = ⟨true, [], [44]⟩ := by
  constructor
  · have h := C8_comma_splitting.1 [] 0 ⟨false, [], [120]⟩ rfl
    simpa using h
  · have h := C8_comma_splitting.2.1 [] 5 ⟨true, [], []⟩ rfl (by decide)
    simpa using h

/-- **C4 counterexample**: the character `é` (code point 233) is encoded
in a UTF-8 input file as the two bytes 195, 169; `process_csv_line`
turns each byte into its own character, so the cell holds the two
characters 195, 169 (`Ã©`) and not the original character 233 — a
non-ASCII character of the input is not appended unchanged. -/
theorem C4_counterexample :
    utf8Encode [233] = [195, 169]
    ∧ process_csv_line [195, 169] = [[195, 169]]
    ∧ ([195, 169] : List Nat) ≠ [233] := by
  refine ⟨by decide, by decide, by decide⟩

/-- **C4 amended**: every *byte* that is not a quote, not an unquoted
delimiter comma and not at a recorded escaped-quote offset is appended
to the current cell as one character whose code point is the byte value
— verbatim for ASCII bytes, but a multi-byte UTF-8 character is split
into several such characters. -/
theorem C4_bytes_appended_verbatim (ddq : List Nat) (i c : Nat) (st : ScanSt)
    (hq : c ≠ 34) (hcomma : ¬ (st.quoted = false ∧ c = 44))
    (hd : ddq.contains i = false) :
    scanStep ddq i c st = { st with cell := st.cell ++ [c] } := by
  unfold scanStep
  rw [if_neg hq, if_neg hcomma, if_neg (by rw [hd]; exact Bool.false_ne_true)]

/-- Witness for C4's amended theorem: the byte 120 (`x`) is appended
unchanged. -/
theorem C4_witness :
    scanStep [] 0 120 ⟨false, [], []⟩ = ⟨false, [], [120]⟩ := by
  have h := C4_bytes_appended_verbatim [] 0 120 ⟨false, [], []⟩ (by omega)
    (by simp) (by decide)
  simpa using h

/-! ### Lemmas about the IPv4 regex (for C2) -/

theorem foldlDigits_lower (xs : List Nat) :
    ∀ acc, acc * 10 ^ xs.length ≤ xs.foldl (fun acc c => acc * 10 + (c - 48)) acc := by
  induction xs with
  | nil => intro acc; simp
  | cons x xs ih =>
    intro acc
    rw [List.foldl_cons]
    calc acc * 10 ^ (x :: xs).length = (acc * 10) * 10 ^ xs.length := by
          simp [List.length_cons, pow_succ]; ring
      _ ≤ (acc * 10 + (x - 48)) * 10 ^ xs.length := Nat.mul_le_mul_right _ (by omega)
      _ ≤ xs.foldl (fun acc c => acc * 10 + (c - 48)) (acc * 10 + (x - 48)) := ih _

set_option maxRecDepth 8192 in
/-- On the ASCII block, `\d` is exactly the ASCII digits: no `Nd`
range other than the one based at 48 meets the first 128 code
points. -/
theorem isDigit_ascii : ∀ c, c < 128 → (isDigit c = true ↔ (48 ≤ c ∧ c ≤ 57)) := by
  decide

/-- On strings of ASCII characters, the octet alternation of the
source regex accepts exactly the strict octets.  (Without the ASCII
restriction the `\d` positions also accept other Unicode digits; see
the C2 counterexample.) -/
theorem octetStr_iff (p : List Nat) (hp : ∀ c ∈ p, c < 128) :
    octetStr p = true ↔ strictOctetSpec p := by
  match p with
  | [] => simp [octetStr, strictOctetSpec]
  | [a] =>
    have ha128 : a < 128 := hp a (by simp)
    constructor
    · intro h
      have h' : 48 ≤ a ∧ a ≤ 57 :=
        (isDigit_ascii a ha128).mp (by simpa only [octetStr] using h)
      refine ⟨by simp, ?_, ?_, ?_⟩
      · intro c hc
        simp only [List.mem_singleton] at hc
        subst hc
        simp only [isAsciiDigit, decide_eq_true_eq]
        omega
      · simp only [digitsVal, List.foldl_cons, List.foldl_nil]
        omega
      · intro h48
        simp only [List.getD_cons_zero] at h48
        simp [h48]
    · rintro ⟨-, hdig, -, -⟩
      have h := hdig a (by simp)
      simp only [isAsciiDigit, decide_eq_true_eq] at h
      show isDigit a = true
      exact (isDigit_ascii a ha128).mpr h
  | [a, b] =>
    have ha128 : a < 128 := hp a (by simp)
    have hb128 : b < 128 := hp b (by simp)
    constructor
    · intro h
      simp only [octetStr, Bool.and_eq_true, decide_eq_true_eq] at h
      obtain ⟨hd, hpa⟩ := h
      have hb' : 48 ≤ b ∧ b ≤ 57 := (isDigit_ascii b hb128).mp hd
      refine ⟨by simp, ?_, ?_, ?_⟩
      · intro c hc
        simp only [List.mem_cons, List.mem_singleton] at hc
        simp only [isAsciiDigit, decide_eq_true_eq]
        rcases hc with rfl | rfl | h'
        · omega
        · omega
        · simp at h'
      · simp only [digitsVal, List.foldl_cons, List.foldl_nil]
        omega
      · intro h48
        simp only [List.getD_cons_zero] at h48
        omega
    · rintro ⟨-, hdig, -, hlead⟩
      have ha := hdig a (by simp)
      have hb := hdig b (by simp)
      simp only [isAsciiDigit, decide_eq_true_eq] at ha hb
      have ha48 : a ≠ 48 := by
        intro h48
        simp only [List.getD_cons_zero] at hlead
        have := hlead h48
        simp at this
      simp only [octetStr, Bool.and_eq_true, decide_eq_true_eq]
      rw [isDigit_ascii b hb128]
      omega
  | [a, b, c] =>
    have ha128 : a < 128 := hp a (by simp)
    have hb128 : b < 128 := hp b (by simp)
    have hc128 : c < 128 := hp c (by simp)
    constructor
    · intro h
      simp only [octetStr, Bool.and_eq_true, Bool.or_eq_true,
        decide_eq_true_eq, isDigit_ascii b hb128, isDigit_ascii c hc128] at h
      refine ⟨by simp, ?_, ?_, ?_⟩
      · intro x hx
        simp only [List.mem_cons, List.mem_singleton] at hx
        simp only [isAsciiDigit, decide_eq_true_eq]
        rcases hx with rfl | rfl | rfl | h'
        · omega
        · omega
        · omega
        · simp at h'
      · simp only [digitsVal, List.foldl_cons, List.foldl_nil]
        omega
      · intro h48
        simp only [List.getD_cons_zero] at h48
        omega
    · rintro ⟨-, hdig, hval, hlead⟩
      have ha := hdig a (by simp)
      have hb := hdig b (by simp)
      have hc := hdig c (by simp)
      simp only [isAsciiDigit, decide_eq_true_eq] at ha hb hc
      have ha48 : a ≠ 48 := by
        intro h48
        simp only [List.getD_cons_zero] at hlead
        have := hlead h48
        simp at this
      simp only [digitsVal, List.foldl_cons, List.foldl_nil] at hval
      simp only [octetStr, Bool.and_eq_true, Bool.or_eq_true,
        decide_eq_true_eq, isDigit_ascii b hb128, isDigit_ascii c hc128]
      omega
  | a :: b :: c :: d :: rest =>
    constructor
    · intro h
      simp [octetStr] at h
    · rintro ⟨-, hdig, hval, hlead⟩
      exfalso
      have ha := hdig a (by simp)
      simp only [isAsciiDigit, decide_eq_true_eq] at ha
      have ha48 : a ≠ 48 := by
        intro h48
        simp only [List.getD_cons_zero] at hlead
        have := hlead h48
        simp at this
      have hv : digitsVal (a :: b :: c :: d :: rest)
          = (b :: c :: d :: rest).foldl (fun acc c => acc * 10 + (c - 48)) (a - 48) := by
        simp [digitsVal]
      have hlow := foldlDigits_lower (b :: c :: d :: rest) (a - 48)
      have hlen : (b :: c :: d :: rest).length = 3 + rest.length := by
        simp only [List.length_cons]
        omega
      have hpow : 1000 ≤ 10 ^ (b :: c :: d :: rest).length := by
        rw [hlen, pow_add]
        have h1 : 1 ≤ 10 ^ rest.length := Nat.one_le_pow _ _ (by omega)
        calc (1000 : Nat) = 1000 * 1 := by omega
          _ ≤ 10 ^ 3 * 10 ^ rest.length := Nat.mul_le_mul (by omega) h1
      have hmul : 10 ^ (b :: c :: d :: rest).length
          ≤ (a - 48) * 10 ^ (b :: c :: d :: rest).length := by
        have h1 : 1 ≤ a - 48 := by omega
        calc 10 ^ (b :: c :: d :: rest).length
            = 1 * 10 ^ (b :: c :: d :: rest).length := by omega
          _ ≤ (a - 48) * 10 ^ (b :: c :: d :: rest).length :=
              Nat.mul_le_mul_right _ h1
      omega

theorem joinWith_cons2 (d : Nat) (p q : List Nat) (ps : List (List Nat)) :
    joinWith d (p :: q :: ps) = p ++ d :: joinWith d (q :: ps) := rfl

theorem splitOnByte_ne_nil (d : Nat) (l : List Nat) : splitOnByte d l ≠ [] := by
  induction l with
  | nil => simp [splitOnByte]
  | cons c rest ih =>
    simp only [splitOnByte]
    by_cases h : c = d
    · simp [h]
    · rw [if_neg h]
      cases hs : splitOnByte d rest with
      | nil => simp
      | cons p ps => simp

theorem joinWith_splitOnByte (d : Nat) (l : List Nat) :
    joinWith d (splitOnByte d l) = l := by
  induction l with
  | nil => rfl
  | cons c rest ih =>
    simp only [splitOnByte]
    by_cases h : c = d
    · rw [if_pos h]
      cases hs : splitOnByte d rest with
      | nil => exact absurd hs (splitOnByte_ne_nil d rest)
      | cons p ps =>
        rw [hs] at ih
        rw [joinWith_cons2]
        simp only [List.nil_append, h]
        rw [ih]
    · rw [if_neg h]
      cases hs : splitOnByte d rest with
      | nil => exact absurd hs (splitOnByte_ne_nil d rest)
      | cons p ps =>
        rw [hs] at ih
        cases ps with
        | nil =>
          show c :: p = c :: rest
          have hp : p = rest := ih
          rw [hp]
        | cons q ps' =>
          show joinWith d ((c :: p) :: q :: ps') = c :: rest
          rw [joinWith_cons2]
          rw [joinWith_cons2] at ih
          simp only [List.cons_append]
          rw [ih]

theorem splitOnByte_append (d : Nat) (o rest : List Nat) (ho : ∀ c ∈ o, c ≠ d) :
    splitOnByte d (o ++ d :: rest) = o :: splitOnByte d rest := by
  induction o with
  | nil => simp [splitOnByte]
  | cons x o ih =>
    have hx : x ≠ d := ho x (by simp)
    have ih' := ih (fun c hc => ho c (by simp [hc]))
    simp only [List.cons_append, splitOnByte, List.append_eq]
    rw [if_neg hx, ih']

theorem splitOnByte_no_delim (d : Nat) (o : List Nat) (ho : ∀ c ∈ o, c ≠ d) :
    splitOnByte d o = [o] := by
  induction o with
  | nil => rfl
  | cons x o ih =>
    have hx : x ≠ d := ho x (by simp)
    have ih' := ih (fun c hc => ho c (by simp [hc]))
    simp only [splitOnByte]
    rw [if_neg hx, ih']

theorem length_four_ex {α : Type} (l : List α) (h : l.length = 4) :
    ∃ a b c d, l = [a, b, c, d] := by
  match l with
  | [a, b, c, d] => exact ⟨a, b, c, d, rfl⟩
  | [] => simp at h
  | [_] => simp at h
  | [_, _] => simp at h
  | [_, _, _] => simp at h
  | _ :: _ :: _ :: _ :: _ :: _ =>
    simp only [List.length_cons] at h
    omega

theorem strictOctetSpec_no_dot (p : List Nat) (h : strictOctetSpec p) :
    ∀ c ∈ p, c ≠ 46 := by
  intro c hc
  have hd := h.2.1 c hc
  simp only [isAsciiDigit, decide_eq_true_eq] at hd
  omega

/-- A strict octet consists of ASCII characters. -/
theorem strictOctetSpec_ascii (p : List Nat) (h : strictOctetSpec p) :
    ∀ c ∈ p, c < 128 := by
  intro c hc
  have hd := h.2.1 c hc
  simp only [isAsciiDigit, decide_eq_true_eq] at hd
  omega

/-- Membership in a piece of a `joinWith` is membership in the join. -/
theorem mem_joinWith (d : Nat) (ps : List (List Nat)) (p : List Nat) (c : Nat)
    (hp : p ∈ ps) (hc : c ∈ p) : c ∈ joinWith d ps := by
  induction ps with
  | nil => simp at hp
  | cons q qs ih =>
    rcases List.mem_cons.mp hp with rfl | hmem
    · cases qs with
      | nil => simpa [joinWith] using hc
      | cons r rs =>
        rw [joinWith_cons2]
        exact List.mem_append.mpr (Or.inl hc)
    · cases qs with
      | nil => simp at hmem
      | cons r rs =>
        rw [joinWith_cons2]
        exact List.mem_append.mpr (Or.inr (List.mem_cons.mpr (Or.inr (ih hmem))))

/-- Members of a `splitOnByte` piece are members of the split list. -/
theorem splitOnByte_mem (d : Nat) (t p : List Nat) (c : Nat)
    (hp : p ∈ splitOnByte d t) (hc : c ∈ p) : c ∈ t := by
  have hj := joinWith_splitOnByte d t
  rw [← hj]
  exact mem_joinWith d (splitOnByte d t) p c hp hc

/-- Every character of a strict dotted-quad is an ASCII digit or the
dot. -/
theorem ipSpec_chars (t : List Nat) (h : ipSpec t) :
    ∀ c ∈ t, (48 ≤ c ∧ c ≤ 57) ∨ c = 46 := by
  obtain ⟨o1, o2, o3, o4, ht, h1, h2, h3, h4⟩ := h
  subst ht
  intro c hc
  have dig : ∀ (o : List Nat), strictOctetSpec o → c ∈ o →
      (48 ≤ c ∧ c ≤ 57) ∨ c = 46 := by
    intro o ho hco
    have hd := ho.2.1 c hco
    simp only [isAsciiDigit, decide_eq_true_eq] at hd
    exact Or.inl hd
  simp only [List.mem_append, List.mem_cons] at hc
  rcases hc with hm | rfl | hm | rfl | hm | rfl | hm
  · exact dig o1 h1 hm
  · exact Or.inr rfl
  · exact dig o2 h2 hm
  · exact Or.inr rfl
  · exact dig o3 h3 hm
  · exact Or.inr rfl
  · exact dig o4 h4 hm

/-- A strict dotted-quad is ASCII. -/
theorem ipSpec_ascii (t : List Nat) (h : ipSpec t) : ∀ c ∈ t, c < 128 := by
  intro c hc
  rcases ipSpec_chars t h c hc with h' | h'
  · omega
  · omega

/-- On ASCII strings, the whole anchored IPv4 regex accepts exactly
the dotted-quads of four strict octets. -/
theorem ipMatch_iff (t : List Nat) (ht : ∀ c ∈ t, c < 128) :
    ipMatch t = true ↔ ipSpec t := by
  constructor
  · intro h
    simp only [ipMatch, Bool.and_eq_true, beq_iff_eq, List.all_eq_true] at h
    obtain ⟨hlen, hall⟩ := h
    obtain ⟨p1, p2, p3, p4, hs⟩ := length_four_ex _ hlen
    have hsub : ∀ p, p ∈ splitOnByte 46 t → ∀ c ∈ p, c < 128 := by
      intro p hpp c hcc
      exact ht c (splitOnByte_mem 46 t p c hpp hcc)
    refine ⟨p1, p2, p3, p4, ?_, ?_, ?_, ?_, ?_⟩
    · have hj := joinWith_splitOnByte 46 t
      rw [hs] at hj
      rw [← hj]
      rfl
    · exact (octetStr_iff p1 (hsub p1 (by rw [hs]; simp))).mp (hall p1 (by rw [hs]; simp))
    · exact (octetStr_iff p2 (hsub p2 (by rw [hs]; simp))).mp (hall p2 (by rw [hs]; simp))
    · exact (octetStr_iff p3 (hsub p3 (by rw [hs]; simp))).mp (hall p3 (by rw [hs]; simp))
    · exact (octetStr_iff p4 (hsub p4 (by rw [hs]; simp))).mp (hall p4 (by rw [hs]; simp))
  · rintro ⟨o1, o2, o3, o4, rfl, h1, h2, h3, h4⟩
    have e : splitOnByte 46 (o1 ++ 46 :: (o2 ++ 46 :: (o3 ++ 46 :: o4)))
        = [o1, o2, o3, o4] := by
      rw [splitOnByte_append 46 o1 _ (strictOctetSpec_no_dot o1 h1),
        splitOnByte_append 46 o2 _ (strictOctetSpec_no_dot o2 h2),
        splitOnByte_append 46 o3 _ (strictOctetSpec_no_dot o3 h3),
        splitOnByte_no_delim 46 o4 (strictOctetSpec_no_dot o4 h4)]
    simp only [ipMatch, e, List.length_cons, List.length_nil, List.all_cons,
      List.all_nil, Bool.and_eq_true, beq_iff_eq,
      (octetStr_iff o1 (strictOctetSpec_ascii o1 h1)).mpr h1,
      (octetStr_iff o2 (strictOctetSpec_ascii o2 h2)).mpr h2,
      (octetStr_iff o3 (strictOctetSpec_ascii o3 h3)).mpr h3,
      (octetStr_iff o4 (strictOctetSpec_ascii o4 h4)).mpr h4, Bool.and_true,
      and_true]

/-- A strict dotted-quad matches the regex, with no ASCII side
condition (its characters are ASCII already). -/
theorem ipMatch_of_spec (t : List Nat) (h : ipSpec t) : ipMatch t = true :=
  (ipMatch_iff t (ipSpec_ascii t h)).mpr h

/-- **C2 counterexample**: the `regex` crate's `\d` is the Unicode
class `\p{Nd}`, so `clean_ipaddr` returns `Ok` on the Arabic-Indic
quad `١.١.١.١` (code points 1633 and 46) even though that string
is not a dotted-quad of decimal (ASCII) octets: the claimed
Err-for-every-other-input direction fails on the program. -/
theorem C2_counterexample :
    clean_ipaddr (str ("١.١.١.١")) = Except.ok (str ("١.١.١.١"))
    ∧ ¬ ipSpec (str ("١.١.١.١")) := by
  constructor
  · rfl
  · intro h
    have hmem : (1633 : Nat) ∈ str ("١.١.١.١") := by decide
    rcases ipSpec_chars _ h 1633 hmem with h' | h'
    · omega
    · omega

/-- **C2 amended**: `clean_ipaddr` returns `Ok` with the trimmed input
unchanged whenever the trimmed input is a dotted-quad of four strict
decimal octets (0-255, no leading zero) and, restricted to inputs
whose trimmed characters are ASCII, exactly then, with the fixed
non-empty `Err` in every other ASCII case (the regex's Unicode `\d`
also admits quads of non-ASCII decimal digits); it accepts
`192.168.1.1`, `0.0.0.0`, `255.255.255.255` and rejects `256.1.1.1`,
`1.2.3`, the empty string and `01.2.3.4`. -/
theorem C2_clean_ipaddr_spec :
    (∀ s, ipSpec (rustTrim s) → clean_ipaddr s = Except.ok (rustTrim s))
    ∧ (∀ s, (∀ c ∈ rustTrim s, c < 128) →
        (clean_ipaddr s = Except.ok (rustTrim s) ↔ ipSpec (rustTrim s)))
    ∧ (∀ s, (∀ c ∈ rustTrim s, c < 128) → ¬ ipSpec (rustTrim s) →
        clean_ipaddr s = Except.error (str ("ipaddr failed regex check")))
    ∧ clean_ipaddr (str ("192.168.1.1")) = Except.ok (str ("192.168.1.1"))
    ∧ clean_ipaddr (str ("0.0.0.0")) = Except.ok (str ("0.0.0.0"))
    ∧ clean_ipaddr (str ("255.255.255.255")) = Except.ok (str ("255.255.255.255"))
    ∧ clean_ipaddr (str ("256.1.1.1")) = Except.error (str ("ipaddr failed regex check"))
    ∧ clean_ipaddr (str ("1.2.3")) = Except.error (str ("ipaddr failed regex check"))
    ∧ clean_ipaddr (str ("")) = Except.error (str ("ipaddr failed regex check"))
    ∧ clean_ipaddr (str ("01.2.3.4")) = Except.error (str ("ipaddr failed regex check")) := by
  refine ⟨?_, ?_, ?_, by rfl, by rfl, by rfl, by rfl, by rfl, by rfl, by rfl⟩
  · intro s h
    unfold clean_ipaddr
    rw [if_pos (ipMatch_of_spec _ h)]
  · intro s hascii
    unfold clean_ipaddr
    by_cases h : ipMatch (rustTrim s) = true
    · rw [if_pos h]
      exact ⟨fun _ => (ipMatch_iff _ hascii).mp h, fun _ => rfl⟩
    · rw [if_neg h]
      constructor
      · intro he
        exact absurd he (by simp)
      · intro hspec
        exact absurd ((ipMatch_iff _ hascii).mpr hspec) h
  · intro s hascii hspec
    unfold clean_ipaddr
    rw [if_neg (fun h => hspec ((ipMatch_iff _ hascii).mp h))]

/-- Witness for C2's amended theorem: the unconditional `Ok` direction
at `10.0.0.1` with an explicit octet decomposition, and the ASCII
`Err` direction at `1.2.3`. -/
theorem C2_witness :
    clean_ipaddr (str ("10.0.0.1")) = Except.ok (rustTrim (str ("10.0.0.1")))
    ∧ clean_ipaddr (str ("1.2.3")) = Except.error (str ("ipaddr failed regex check")) := by
  constructor
  · exact C2_clean_ipaddr_spec.1 (str ("10.0.0.1"))
      ⟨[49, 48], [48], [48], [49], by decide,
        ⟨by decide, by decide, by decide, fun h => absurd h (by decide)⟩,
        ⟨by decide, by decide, by decide, fun _ => rfl⟩,
        ⟨by decide, by decide, by decide, fun _ => rfl⟩,
        ⟨by decide, by decide, by decide, fun h => absurd h (by decide)⟩⟩
  · exact C2_clean_ipaddr_spec.2.2.1 (str ("1.2.3")) (by decide)
      (fun hspec => absurd (ipMatch_of_spec _ hspec) (by decide))

/-! ### Lemmas about the MAC regex (for C6) -/

theorem macGroups_iff (k : Nat) : ∀ l, macGroups k l = true ↔
    ∃ gs : List (List Nat), gs.length = k ∧ (∀ g ∈ gs, hexPairShape g)
      ∧ l = colonGroups gs := by
  induction k with
  | zero =>
    intro l
    constructor
    · intro h
      simp only [macGroups, List.isEmpty_iff] at h
      exact ⟨[], rfl, by simp, by simp [colonGroups, h]⟩
    · rintro ⟨gs, hlen, -, rfl⟩
      rw [List.length_eq_zero.mp hlen]
      rfl
  | succ k ih =>
    intro l
    constructor
    · intro h
      match l with
      | [] => simp [macGroups] at h
      | [_] => simp [macGroups] at h
      | [_, _] => simp [macGroups] at h
      | c :: a :: b :: rest =>
        simp only [macGroups, Bool.and_eq_true, decide_eq_true_eq] at h
        obtain ⟨⟨⟨hc, ha⟩, hb⟩, hg⟩ := h
        obtain ⟨gs, hlen, hsh, hrest⟩ := (ih rest).mp hg
        refine ⟨[a, b] :: gs, by simp [hlen], ?_, ?_⟩
        · intro g hg'
          rcases List.mem_cons.mp hg' with rfl | hgm
          · exact ⟨a, b, rfl, ha, hb⟩
          · exact hsh g hgm
        · subst hc hrest
          rfl
    · rintro ⟨gs, hlen, hsh, rfl⟩
      match gs with
      | g :: gs' =>
        obtain ⟨x, y, hg, hx, hy⟩ := hsh g (List.mem_cons_self g gs')
        subst hg
        have hlen' : gs'.length = k := by simpa using hlen
        show macGroups (k + 1) (colonGroups ([x, y] :: gs')) = true
        have he : colonGroups ([x, y] :: gs') = 58 :: x :: y :: colonGroups gs' := rfl
        rw [he]
        simp only [macGroups, Bool.and_eq_true, decide_eq_true_eq, hx, hy,
          and_true, true_and]
        exact (ih (colonGroups gs')).mpr
          ⟨gs', hlen', fun g hg => hsh g (by simp [hg]), rfl⟩

theorem joinWith_cons_colonGroups (gs : List (List Nat)) :
    ∀ g, joinWith 58 (g :: gs) = g ++ colonGroups gs := by
  induction gs with
  | nil => intro g; simp [joinWith, colonGroups]
  | cons g' gs' ih =>
    intro g
    have h1 : joinWith 58 (g :: g' :: gs') = g ++ 58 :: joinWith 58 (g' :: gs') := rfl
    rw [h1, ih g']
    simp [colonGroups]

/-- The whole anchored MAC regex accepts exactly the colon-joined lists
of six two-hex-digit groups. -/
theorem macMatch_iff (v : List Nat) : macMatch v = true ↔ macSpec v := by
  constructor
  · intro h
    match v with
    | [] => simp [macMatch] at h
    | [_] => simp [macMatch] at h
    | a :: b :: rest =>
      simp only [macMatch, Bool.and_eq_true] at h
      obtain ⟨⟨ha, hb⟩, hg⟩ := h
      obtain ⟨gs, hlen, hsh, hrest⟩ := (macGroups_iff 5 rest).mp hg
      refine ⟨[a, b] :: gs, by simp [hlen], ?_, ?_⟩
      · intro g hg'
        rcases List.mem_cons.mp hg' with rfl | hgm
        · exact ⟨a, b, rfl, ha, hb⟩
        · exact hsh g hgm
      · rw [joinWith_cons_colonGroups gs [a, b], ← hrest]
        rfl
  · rintro ⟨gs, hlen, hsh, rfl⟩
    match gs with
    | g :: gs' =>
      obtain ⟨x, y, hg, hx, hy⟩ := hsh g (List.mem_cons_self g gs')
      subst hg
      have hlen' : gs'.length = 5 := by simpa using hlen
      rw [joinWith_cons_colonGroups gs' [x, y]]
      show macMatch (x :: y :: colonGroups gs') = true
      simp only [macMatch, Bool.and_eq_true, hx, hy, true_and]
      exact (macGroups_iff 5 (colonGroups gs')).mpr
        ⟨gs', hlen', fun g hg => hsh g (by simp [hg]), rfl⟩

/-- **C6**: `clean_mac` returns the absent marker `Err("")` exactly for
blank (empty-after-trim) input; otherwise it hyphen-normalizes and
lowercases, returning `Ok` of the normalized string exactly when that
string is six two-hex-digit groups separated by colons and a non-empty
`Err` otherwise; `AA-BB-CC-DD-EE-FF` and ` aa:bb:cc:dd:ee:ff ` both
normalize to `aa:bb:cc:dd:ee:ff`, while `aa:bb:cc:dd:ee` and
`gg:bb:cc:dd:ee:ff` are real (non-empty) errors. -/
theorem C6_clean_mac_spec :
    (∀ s, clean_mac s = Except.error [] ↔ rustTrim s = [])
    ∧ (∀ s, rustTrim s ≠ [] →
        (clean_mac s = Except.ok (macNormalize (rustTrim s))
          ↔ macSpec (macNormalize (rustTrim s))))
    ∧ (∀ s, rustTrim s ≠ [] → ¬ macSpec (macNormalize (rustTrim s)) →
        clean_mac s = Except.error (str ("macaddr failed regex check"))
          ∧ str ("macaddr failed regex check") ≠ [])
    ∧ clean_mac (str ("AA-BB-CC-DD-EE-FF")) = Except.ok (str ("aa:bb:cc:dd:ee:ff"))
    ∧ clean_mac (str (" aa:bb:cc:dd:ee:ff ")) = Except.ok (str ("aa:bb:cc:dd:ee:ff"))
    ∧ clean_mac (str ("aa:bb:cc:dd:ee")) = Except.error (str ("macaddr failed regex check"))
    ∧ clean_mac (str ("gg:bb:cc:dd:ee:ff")) = Except.error (str ("macaddr failed regex check")) := by
  refine ⟨?_, ?_, ?_, by rfl, by rfl, by rfl, by rfl⟩
  · intro s
    simp only [clean_mac]
    by_cases ht : (rustTrim s).length = 0
    · rw [if_pos ht]
      exact ⟨fun _ => List.length_eq_zero.mp ht, fun _ => rfl⟩
    · rw [if_neg ht]
      by_cases hm : macMatch (macNormalize (rustTrim s)) = true
      · rw [if_pos hm]
        constructor
        · intro h; exact absurd h (by simp)
        · intro h; exact absurd (List.length_eq_zero.mpr h) ht
      · rw [if_neg hm]
        constructor
        · intro h
          injection h with h'
          exact absurd h' (by decide)
        · intro h; exact absurd (List.length_eq_zero.mpr h) ht
  · intro s hne
    simp only [clean_mac]
    rw [if_neg (fun h => hne (List.length_eq_zero.mp h))]
    by_cases hm : macMatch (macNormalize (rustTrim s)) = true
    · rw [if_pos hm]
      exact ⟨fun _ => (macMatch_iff _).mp hm, fun _ => rfl⟩
    · rw [if_neg hm]
      constructor
      · intro h; exact absurd h (by simp)
      · intro h; exact absurd ((macMatch_iff _).mpr h) hm
  · intro s hne hnspec
    simp only [clean_mac]
    rw [if_neg (fun h => hne (List.length_eq_zero.mp h)),
      if_neg (fun h => hnspec ((macMatch_iff _).mp h))]
    exact ⟨rfl, by decide⟩

/-- Witness for C6: the `Ok` direction at `0A-0B-0C-0D-0E-0F` with an
explicit group decomposition, and the non-empty-`Err` direction at
`zz`. -/
theorem C6_witness :
    clean_mac (str ("0A-0B-0C-0D-0E-0F"))
      = Except.ok (macNormalize (rustTrim (str ("0A-0B-0C-0D-0E-0F"))))
    ∧ clean_mac (str ("zz")) = Except.error (str ("macaddr failed regex check")) := by
  constructor
  · refine (C6_clean_mac_spec.2.1 (str ("0A-0B-0C-0D-0E-0F")) (by decide)).mpr ?_
    refine ⟨[[48, 97], [48, 98], [48, 99], [48, 100], [48, 101], [48, 102]],
      by decide, ?_, by rfl⟩
    intro g hg
    simp only [List.mem_cons, List.not_mem_nil, or_false] at hg
    rcases hg with rfl | rfl | rfl | rfl | rfl | rfl
    · exact ⟨48, 97, rfl, by decide, by decide⟩
    · exact ⟨48, 98, rfl, by decide, by decide⟩
    · exact ⟨48, 99, rfl, by decide, by decide⟩
    · exact ⟨48, 100, rfl, by decide, by decide⟩
    · exact ⟨48, 101, rfl, by decide, by decide⟩
    · exact ⟨48, 102, rfl, by decide, by decide⟩
  · exact (C6_clean_mac_spec.2.2.1 (str ("zz")) (by decide)
      (fun h => absurd ((macMatch_iff _).mpr h) (by decide))).1
